import Mathlib

/-!
# Room broadcast registry (`adapter.go`)

A shallow embedding of the in-memory `broadcast` adaptor of go-socket.io:
the table `map[string]map[string]Socket` and the operations `Join`,
`JoinBy`, `LeaveBy`, `Leave`, `Send` and `Len`.

Go maps are modelled by Mathlib's `Finmap`: `m[k]` is `Finmap.lookup`,
`m[k] = v` is `Finmap.insert`, `delete(m, k)` is `Finmap.erase` and
`len(m)` is the cardinality of `Finmap.keys`.  Equality of `Finmap`s is
extensional, as is the observable content of a Go map.  Every inner map is
created by `make` inside `Join`/`JoinBy` and stored under one room only, so
no two rooms alias and the in-place updates of the source are the value
updates below.  The `RWMutex` is not modelled: every operation is one
atomic step on the table.

The first embedding ranges over connections, which are never nil.  The nil
value of the interface type `Socket`, and the panic of a method call on it,
are embedded separately as `NilableBroadcast`, with the same method bodies.
-/

namespace socketio

/-- Modelled from the spec: the `Socket` interface, which `adapter.go` uses
but does not declare.  A connection is a reference `ref` (the identity of
the Go interface value) with the string `Id` returned by its `Id()` method; its
`Emit` capability is recorded by `Send` as an `Emission`. -/
structure Socket where
  ref : Nat
  Id : String
deriving DecidableEq, Repr

/-- The inner mapping of a room: key to connection. -/
abbrev Sockets := Finmap (fun _ : String => Socket)

/-- The registry table: room name to inner mapping. -/
abbrev Table := Finmap (fun _ : String => Sockets)

/-- The Go type `error`; `none` is `nil`. -/
abbrev error := Option String

/-- The struct `broadcast`: the room table `m`. -/
structure broadcast where
  m : Table
deriving DecidableEq

/-- One call `s.Emit(event, args...)` on the connection `sock`. -/
structure Emission (α : Type) where
  sock : Socket
  event : String
  args : List α
deriving DecidableEq

/-- The constructor `newBroadcastDefault`: `m: make(map[string]map[string]Socket)`. -/
def newBroadcastDefault : broadcast := ⟨∅⟩

/-- The read `b.m[room]` with an absent room read as an empty mapping: the
`sockets, ok := b.m[room]; if !ok { sockets = make(map[string]Socket) }` of
`Join` and `JoinBy`, and the `sockets := b.m[room]` (a nil map when absent)
of `Send` and `Len`. -/
def broadcast.roomAt (b : broadcast) (room : String) : Sockets :=
  match b.m.lookup room with
  | some sockets => sockets
  | none => ∅

/-- The method `Join`: `sockets[socket.Id()] = socket; b.m[room] = sockets; return nil`. -/
def broadcast.Join (b : broadcast) (room : String) (socket : Socket) : broadcast × error :=
  let sockets := (b.roomAt room).insert socket.Id socket
  (⟨b.m.insert room sockets⟩, none)

/-- The method `JoinBy`: `sockets[index] = socket; b.m[room] = sockets; return nil`. -/
def broadcast.JoinBy (b : broadcast) (room : String) (index : String) (socket : Socket) :
    broadcast × error :=
  let sockets := (b.roomAt room).insert index socket
  (⟨b.m.insert room sockets⟩, none)

/-- The method `LeaveBy`: an absent room returns at once; otherwise the key
`index` is deleted, an emptied room is deleted from the table, and a room
that still has entries is stored back. The parameter `socket` is unused. -/
def broadcast.LeaveBy (b : broadcast) (room : String) (index : String) (_socket : Socket) :
    broadcast × error :=
  match b.m.lookup room with
  | none => (b, none)
  | some sockets =>
    let sockets := sockets.erase index
    if sockets.keys.card = 0 then
      (⟨b.m.erase room⟩, none)
    else
      (⟨b.m.insert room sockets⟩, none)

/-- The method `Leave`: as `LeaveBy`, with the key `socket.Id()`. -/
def broadcast.Leave (b : broadcast) (room : String) (socket : Socket) : broadcast × error :=
  match b.m.lookup room with
  | none => (b, none)
  | some sockets =>
    let sockets := sockets.erase socket.Id
    if sockets.keys.card = 0 then
      (⟨b.m.erase room⟩, none)
    else
      (⟨b.m.insert room sockets⟩, none)

/-- The guard of the loop body of `Send`: `ignore != nil && ignore.Id() == id`. -/
def skips (ignore : Option Socket) (id : String) : Bool :=
  match ignore with
  | none => false
  | some ig => ig.Id = id

/-- The method `Send`: one `Emit(event, args...)` for every entry
`id, s` of `b.m[room]` that the guard does not skip, and `return nil`.
The iteration order of a Go map is unspecified, so the emissions form a
multiset. The table is not changed. -/
def broadcast.Send {α : Type} (b : broadcast) (ignore : Option Socket) (room event : String)
    (args : List α) : Multiset (Emission α) × error :=
  ((((b.roomAt room).entries.filter (fun e => skips ignore e.1 = false)).map
      (fun e => (⟨e.2, event, args⟩ : Emission α))), none)

/-- The method `Len`: `len(b.m[":"+room])`. -/
def broadcast.Len (b : broadcast) (room : String) : Nat :=
  (b.roomAt (":" ++ room)).keys.card

/-- The number of entries of the inner mapping stored under `room`, 0 when the
table has no entry for `room`: the quantity the specification calls the
member count of the room. -/
def broadcast.entryCount (b : broadcast) (room : String) : Nat :=
  match b.m.lookup room with
  | some sockets => sockets.keys.card
  | none => 0

/-- The invariant "a room name never maps to an empty inner mapping". -/
def broadcast.NoEmptyRoom (b : broadcast) : Prop :=
  ∀ room ∈ b.m.keys, b.m.lookup room ≠ some ∅

instance (b : broadcast) : Decidable b.NoEmptyRoom := by
  unfold broadcast.NoEmptyRoom
  infer_instance

/-- One call of the registry's interface, with its arguments. -/
inductive Call (α : Type) where
  | Join (room : String) (socket : Socket)
  | JoinBy (room index : String) (socket : Socket)
  | Leave (room : String) (socket : Socket)
  | LeaveBy (room index : String) (socket : Socket)
  | Send (ignore : Option Socket) (room event : String) (args : List α)
  | Len (room : String)

/-- The table after one call: `Send` and `Len` only read it. -/
def broadcast.step {α : Type} (b : broadcast) : Call α → broadcast
  | .Join room socket => (b.Join room socket).1
  | .JoinBy room index socket => (b.JoinBy room index socket).1
  | .Leave room socket => (b.Leave room socket).1
  | .LeaveBy room index socket => (b.LeaveBy room index socket).1
  | .Send _ _ _ _ => b
  | .Len _ => b

/-- The table after a finite sequence of calls, run from left to right. -/
def broadcast.run {α : Type} (b : broadcast) (calls : List (Call α)) : broadcast :=
  calls.foldl broadcast.step b

/-- A connection with identity "c1". -/
def sockA : Socket := ⟨1, "c1"⟩

/-- A connection with identity "c2". -/
def sockB : Socket := ⟨2, "c2"⟩

/-- The table after `Join("lobby", sockA)` on a new registry. -/
def lobbyA : broadcast := (newBroadcastDefault.Join "lobby" sockA).1

/-- The table after `JoinBy("lobby", "user-42", sockA)` on a new registry. -/
def lobbyIndexedA : broadcast := (newBroadcastDefault.JoinBy "lobby" "user-42" sockA).1

/-- The table after `Join(room, c)` for each `c` of a list, one after another. -/
def broadcast.joinAll (b : broadcast) (room : String) (cs : List Socket) : broadcast :=
  cs.foldl (fun t c => (t.Join room c).1) b

/-- The table of the example scenario of the specification after its two joins:
`Join("lobby", sockA); JoinBy("lobby", "user-42", sockB)` on a new registry. -/
def lobbyAB : broadcast := (lobbyA.JoinBy "lobby" "user-42" sockB).1

/-- What the calling goroutine holds of the `sync.RWMutex` of the registry. -/
inductive Held where
  | nothing
  | shared
  | exclusive
deriving DecidableEq

/-- The actions of a method body on the lock and on the room table `b.m`
(the inner maps included). -/
inductive Act where
  | Lock
  | Unlock
  | RLock
  | RUnlock
  | readTable
  | writeTable
deriving DecidableEq

/-- One action under the lock discipline: a lock is taken when nothing is held
and released in the mode it was taken, the table is read only while the lock is
held (shared or exclusive) and written only while it is held exclusively;
`none` when the action breaks the discipline. -/
def Held.after : Held → Act → Option Held
  | .nothing, .Lock => some .exclusive
  | .exclusive, .Unlock => some .nothing
  | .nothing, .RLock => some .shared
  | .shared, .RUnlock => some .nothing
  | .shared, .readTable => some .shared
  | .exclusive, .readTable => some .exclusive
  | .exclusive, .writeTable => some .exclusive
  | _, _ => none

/-- The actions of a method body run in order from what is held at its start. -/
def runActs : Held → List Act → Option Held
  | h, [] => some h
  | h, a :: rest =>
    match h.after a with
    | none => none
    | some h1 => runActs h1 rest

/-- A method body touches the table only under the lock, and returns with the
lock released. -/
def guarded (acts : List Act) : Bool :=
  runActs .nothing acts = some .nothing

/-- The body of `Join` (lines 41-48): `b.Lock()`, the read `b.m[room]`, the
writes `sockets[socket.Id()] = socket` and `b.m[room] = sockets`, `b.Unlock()`. -/
def JoinActs : List Act := [.Lock, .readTable, .writeTable, .writeTable, .Unlock]

/-- The body of `JoinBy` (lines 53-60), with the same actions as `Join`. -/
def JoinByActs : List Act := [.Lock, .readTable, .writeTable, .writeTable, .Unlock]

/-- The body of `LeaveBy` (lines 65-77) on each of its paths: `b.Lock()` and the
read `b.m[room]`; when the room is present (`ok`) the write `delete(sockets,
index)`, the read `len(sockets)` and then `delete(b.m, room)` (`emptied`) or
`b.m[room] = sockets`; the deferred `b.Unlock()` on return. -/
def LeaveByActs (ok emptied : Bool) : List Act :=
  [.Lock, .readTable]
    ++ (if ok then
          [.writeTable, .readTable] ++ (if emptied then [.writeTable] else [.writeTable])
        else [])
    ++ [.Unlock]

/-- The body of `Leave` (lines 81-93), with the same actions as `LeaveBy`. -/
def LeaveActs (ok emptied : Bool) : List Act :=
  [.Lock, .readTable]
    ++ (if ok then
          [.writeTable, .readTable] ++ (if emptied then [.writeTable] else [.writeTable])
        else [])
    ++ [.Unlock]

/-- The body of `Send` (lines 97-105) on a room of `n` entries: `b.RLock()`, the
read `b.m[room]`, one read of the inner map per iteration of the `range` loop,
`b.RUnlock()`. -/
def SendActs (n : Nat) : List Act :=
  [.RLock, .readTable] ++ List.replicate n .readTable ++ [.RUnlock]

/-- The body of `Len` (line 110): the read `len(b.m[":"+room])` alone. -/
def LenActs : List Act := [.readTable]

/-- The table after `JoinBy("lobby", "c1", sockB)` on a new registry: `sockB`
registered under the identity of `sockA`. -/
def lobbyBUnderA : broadcast := (newBroadcastDefault.JoinBy "lobby" "c1" sockB).1

/-! ### The registry over Go's interface values, nil included

The definitions above range over connections. A Go value of the interface
type `Socket` may also be nil, and a method call on it is a run-time panic. The
definitions below embed the same method bodies over such values: a result
`none` is the panic of the call, which leaves the method without returning
(in `Join`, with the lock still held, since its `Unlock` is not deferred). -/

/-- A value of the interface type `Socket`: `none` is the nil interface value. -/
abbrev SocketValue := Option Socket

/-- The inner mapping of a room over interface values: a key may hold nil. -/
abbrev SocketValues := Finmap (fun _ : String => SocketValue)

/-- The struct `broadcast` over interface values. -/
structure NilableBroadcast where
  m : Finmap (fun _ : String => SocketValues)
deriving DecidableEq

/-- The constructor `newBroadcastDefault`, over interface values. -/
def newNilableBroadcast : NilableBroadcast := ⟨∅⟩

/-- The read `b.m[room]`, an absent room read as an empty mapping. -/
def NilableBroadcast.roomAt (b : NilableBroadcast) (room : String) : SocketValues :=
  match b.m.lookup room with
  | some sockets => sockets
  | none => ∅

/-- The method `Join` (lines 40-50): the call `socket.Id()` of line 46 panics on
a nil `socket`, before any write; otherwise `sockets[socket.Id()] = socket;
b.m[room] = sockets; return nil`. -/
def NilableBroadcast.Join (b : NilableBroadcast) (room : String) (socket : SocketValue) :
    Option (NilableBroadcast × error) :=
  match socket with
  | none => none
  | some s => some (⟨b.m.insert room ((b.roomAt room).insert s.Id (some s))⟩, none)

/-- The method `JoinBy` (lines 52-62): no method of `socket` is called, so a nil
`socket` is stored like any other value. -/
def NilableBroadcast.JoinBy (b : NilableBroadcast) (room index : String)
    (socket : SocketValue) : Option (NilableBroadcast × error) :=
  some (⟨b.m.insert room ((b.roomAt room).insert index socket)⟩, none)

/-- The method `LeaveBy` (lines 64-78): the parameter `socket` is unused. -/
def NilableBroadcast.LeaveBy (b : NilableBroadcast) (room index : String)
    (_socket : SocketValue) : Option (NilableBroadcast × error) :=
  match b.m.lookup room with
  | none => some (b, none)
  | some sockets =>
    let sockets := sockets.erase index
    if sockets.keys.card = 0 then
      some (⟨b.m.erase room⟩, none)
    else
      some (⟨b.m.insert room sockets⟩, none)

/-- The method `Leave` (lines 80-94): an absent room returns before `socket` is
used; otherwise the call `socket.Id()` of line 87 panics on a nil `socket`. -/
def NilableBroadcast.Leave (b : NilableBroadcast) (room : String) (socket : SocketValue) :
    Option (NilableBroadcast × error) :=
  match b.m.lookup room with
  | none => some (b, none)
  | some sockets =>
    match socket with
    | none => none
    | some s =>
      let sockets := sockets.erase s.Id
      if sockets.keys.card = 0 then
        some (⟨b.m.erase room⟩, none)
      else
        some (⟨b.m.insert room sockets⟩, none)

/-- The method `Send` (lines 96-107): the guard `ignore != nil && ignore.Id() ==
id` calls no method on a nil `ignore`; the call `s.Emit(event, args...)` of line
103 panics when an entry that is not skipped holds nil; otherwise there is one
emission for every entry that is not skipped, and `return nil`. -/
def NilableBroadcast.Send {α : Type} (b : NilableBroadcast) (ignore : SocketValue)
    (room event : String) (args : List α) : Option (Multiset (Emission α) × error) :=
  let targets := (b.roomAt room).entries.filter (fun e => skips ignore e.1 = false)
  if (none : SocketValue) ∈ targets.map (fun e => e.2) then
    none
  else
    some (targets.filterMap (fun e => e.2.map (fun s => (⟨s, event, args⟩ : Emission α))), none)

/-- No key of any room holds the nil interface value. -/
def NilableBroadcast.NoNilEntry (b : NilableBroadcast) : Prop :=
  ∀ room ∈ b.m.keys, ∀ k ∈ (b.roomAt room).keys, (b.roomAt room).lookup k ≠ some none

instance (b : NilableBroadcast) : Decidable b.NoNilEntry := by
  unfold NilableBroadcast.NoNilEntry
  infer_instance

/-- The table, over interface values, after `Join("lobby", sockA)` on a new
registry. -/
def nilableLobbyA : NilableBroadcast :=
  ⟨(∅ : Finmap (fun _ : String => SocketValues)).insert "lobby"
    ((∅ : SocketValues).insert "c1" (some sockA))⟩

/-- The table, over interface values, after `JoinBy("lobby", "user-42", nil)`
on a new registry. -/
def nilableLobbyNil : NilableBroadcast :=
  ⟨(∅ : Finmap (fun _ : String => SocketValues)).insert "lobby"
    ((∅ : SocketValues).insert "user-42" none)⟩

/-! ## Facts about Go maps as `Finmap`s -/

theorem keys_insert_eq (k : String) (v : Socket) (s : Sockets) :
    (s.insert k v).keys = insert k s.keys := by
  ext x
  simp [Finmap.mem_keys, Finmap.mem_insert]

theorem erase_of_lookup_none {β : Type} (k : String) (s : Finmap (fun _ : String => β))
    (h : s.lookup k = none) : s.erase k = s := by
  apply Finmap.ext_lookup
  intro x
  by_cases hx : x = k
  · subst hx
    rw [Finmap.lookup_erase, h]
  · rw [Finmap.lookup_erase_ne hx]

theorem insert_of_lookup_some {β : Type} (k : String) (v : β)
    (s : Finmap (fun _ : String => β)) (h : s.lookup k = some v) : s.insert k v = s := by
  apply Finmap.ext_lookup
  intro x
  by_cases hx : x = k
  · subst hx
    rw [Finmap.lookup_insert, h]
  · rw [Finmap.lookup_insert_of_ne _ hx]

theorem keys_card_eq_zero_iff {β : Type} (s : Finmap (fun _ : String => β)) :
    s.keys.card = 0 ↔ s = ∅ := by
  constructor
  · intro h
    apply Finmap.ext_lookup
    intro x
    rw [Finmap.lookup_empty, Finmap.lookup_eq_none, ← Finmap.mem_keys, Finset.card_eq_zero.mp h]
    exact Finset.not_mem_empty x
  · intro h
    rw [h, Finmap.keys_empty, Finset.card_empty]

theorem card_entries_eq_card_keys {β : Type} (s : Finmap (fun _ : String => β)) :
    Multiset.card s.entries = s.keys.card := by
  show Multiset.card s.entries = Multiset.card (s.entries.keys)
  rw [Multiset.keys, Multiset.card_map]

theorem roomAt_of_lookup_some {b : broadcast} {room : String} {sockets : Sockets}
    (h : b.m.lookup room = some sockets) : b.roomAt room = sockets := by
  simp [broadcast.roomAt, h]

theorem roomAt_of_lookup_none {b : broadcast} {room : String}
    (h : b.m.lookup room = none) : b.roomAt room = ∅ := by
  simp [broadcast.roomAt, h]

theorem entryCount_eq_card_roomAt (b : broadcast) (room : String) :
    b.entryCount room = (b.roomAt room).keys.card := by
  unfold broadcast.entryCount broadcast.roomAt
  cases b.m.lookup room <;> simp [Finmap.keys_empty]

/-! ## Len -/

/-- Claim C1, evaluated on the code: after `Join("lobby", sockA)` on a new
registry the room "lobby" has one entry, yet `Len("lobby")` returns 0, because
`Len` reads the table at the key ":lobby". -/
theorem Len_misses_joined_room :
    lobbyA.entryCount "lobby" = 1 ∧ lobbyA.Len "lobby" = 0 := by
  decide

/-! ## Send -/

/-- Claim C2, evaluated on the code: a connection registered by
`JoinBy("lobby", "user-42", sockA)` and then passed as `ignore` to `Send`
still receives the event, because the guard compares `ignore.Id()` with the
key "user-42" of the entry. -/
theorem Send_emits_to_ignore_joined_by_index :
    (lobbyIndexedA.Send (some sockA) "lobby" "chat" ["hello"]).1
      = {⟨sockA, "chat", ["hello"]⟩} := by
  decide

/-- Claim C3: `Send(nil, R, event, args)` emits `(event, args)` exactly once for
every entry of `R`, skipping none (the emissions are the entries of `R`, each
mapped to one emission on its connection, so there are as many emissions as
entries), and emits nothing when `R` is not in the table. -/
theorem Send_nil_emits_every_entry {α : Type} (b : broadcast) (R event : String)
    (args : List α) :
    (b.Send none R event args).1
        = (b.roomAt R).entries.map (fun e => (⟨e.2, event, args⟩ : Emission α))
      ∧ Multiset.card (b.Send none R event args).1 = b.entryCount R
      ∧ (b.m.lookup R = none → (b.Send none R event args).1 = 0) := by
  have h1 : (b.Send none R event args).1
      = (b.roomAt R).entries.map (fun e => (⟨e.2, event, args⟩ : Emission α)) := by
    have hf : (b.roomAt R).entries.filter (fun e => skips none e.1 = false)
        = (b.roomAt R).entries :=
      Multiset.filter_eq_self.mpr (fun _ _ => rfl)
    simp only [broadcast.Send, hf]
  refine ⟨h1, ?_, ?_⟩
  · rw [h1, Multiset.card_map, card_entries_eq_card_keys, entryCount_eq_card_roomAt]
  · intro habs
    rw [h1, roomAt_of_lookup_none habs]
    rfl

/-- Witness for claim C3: with `nil` as `ignore`, the one entry of "lobby" is
emitted to, and the absent room "hall" gives no emission. -/
theorem Send_nil_emits_every_entry_witness :
    (lobbyA.Send none "lobby" "chat" ["hello"]).1 = {⟨sockA, "chat", ["hello"]⟩}
      ∧ (lobbyA.Send none "hall" "chat" ["hello"]).1 = 0 := by
  refine ⟨?_, (Send_nil_emits_every_entry lobbyA "hall" "chat" ["hello"]).2.2 (by decide)⟩
  decide

theorem NoEmptyRoom_iff (b : broadcast) :
    b.NoEmptyRoom ↔ ∀ room sockets, b.m.lookup room = some sockets → sockets ≠ ∅ := by
  constructor
  · intro h room sockets hl he
    apply h room (Finmap.mem_keys.mpr (Finmap.mem_of_lookup_eq_some hl))
    rw [hl, he]
  · intro h room _ hl
    exact h room ∅ hl rfl

/-! ## Join, Leave and LeaveBy -/

theorem Leave_eq_LeaveBy_Id (b : broadcast) (room : String) (socket other : Socket) :
    b.Leave room socket = b.LeaveBy room socket.Id other := rfl

theorem insert_ne_empty (k : String) (v : Socket) (s : Sockets) : s.insert k v ≠ ∅ := by
  intro h
  have hl : (s.insert k v).lookup k = some v := Finmap.lookup_insert s
  rw [h, Finmap.lookup_empty] at hl
  exact Option.noConfusion hl

theorem LeaveBy_of_absent (b : broadcast) (room index : String) (socket : Socket)
    (h : b.m.lookup room = none) : b.LeaveBy room index socket = (b, none) := by
  simp [broadcast.LeaveBy, h]

theorem LeaveBy_of_emptied (b : broadcast) (room index : String) (socket : Socket)
    (sockets : Sockets) (h : b.m.lookup room = some sockets) (he : sockets.erase index = ∅) :
    b.LeaveBy room index socket = (⟨b.m.erase room⟩, none) := by
  simp [broadcast.LeaveBy, h, he, Finmap.keys_empty]

theorem LeaveBy_of_remaining (b : broadcast) (room index : String) (socket : Socket)
    (sockets : Sockets) (h : b.m.lookup room = some sockets) (he : sockets.erase index ≠ ∅) :
    b.LeaveBy room index socket = (⟨b.m.insert room (sockets.erase index)⟩, none) := by
  have hc : ¬ (sockets.erase index).keys.card = 0 := fun hc =>
    he ((keys_card_eq_zero_iff _).mp hc)
  simp only [broadcast.LeaveBy, h]
  rw [if_neg hc]

/-- Claim C4: after `Join(R, C)` the table contains `R`, the key `C.Id()` of `R`
holds `C`, every other key of `R` holds what it held before the call, and a
room that was absent holds only that one entry; the call returns no error. -/
theorem Join_stores_under_own_id (b : broadcast) (R : String) (C : Socket) :
    (b.Join R C).2 = none
      ∧ ∃ sockets, (b.Join R C).1.m.lookup R = some sockets
          ∧ sockets.lookup C.Id = some C
          ∧ (∀ k, k ≠ C.Id → sockets.lookup k = (b.roomAt R).lookup k)
          ∧ (b.m.lookup R = none → sockets = Finmap.singleton C.Id C) := by
  refine ⟨rfl, (b.roomAt R).insert C.Id C, Finmap.lookup_insert _, Finmap.lookup_insert _,
    fun k hk => Finmap.lookup_insert_of_ne _ hk, fun habs => ?_⟩
  rw [roomAt_of_lookup_none habs]
  rfl

/-- Witness for claim C4: joining `sockA` into the absent room "lobby" of a new
registry creates the room with the single entry "c1". -/
theorem Join_stores_under_own_id_witness :
    (newBroadcastDefault.Join "lobby" sockA).1.m.lookup "lobby"
      = some (Finmap.singleton "c1" sockA) := by
  obtain ⟨_, sockets, h1, _, _, h4⟩ := Join_stores_under_own_id newBroadcastDefault "lobby" sockA
  rw [h1, h4 (by decide)]
  rfl

/-- Claim C5: in a table where no room has an empty inner mapping, when `R` is
absent or has no entry under `k`, `LeaveBy(R, k, C)` for any `C` and
`Leave(R, C)` for any `C` with `C.Id() = k` return no error and leave the whole
table as it was. -/
theorem Leave_of_missing_is_noop (b : broadcast) (hinv : b.NoEmptyRoom) (R k : String)
    (hmiss : b.m.lookup R = none
      ∨ ∃ sockets, b.m.lookup R = some sockets ∧ sockets.lookup k = none) :
    (∀ C, b.LeaveBy R k C = (b, none)) ∧ (∀ C, C.Id = k → b.Leave R C = (b, none)) := by
  have hby : ∀ C, b.LeaveBy R k C = (b, none) := by
    intro C
    rcases hmiss with habs | ⟨sockets, hR, hk⟩
    · exact LeaveBy_of_absent b R k C habs
    · have he : sockets.erase k = sockets := erase_of_lookup_none k sockets hk
      have hne : sockets.erase k ≠ ∅ := by
        rw [he]
        exact (NoEmptyRoom_iff b).mp hinv R sockets hR
      rw [LeaveBy_of_remaining b R k C sockets hR hne, he, insert_of_lookup_some R sockets b.m hR]
  refine ⟨hby, fun C hC => ?_⟩
  rw [Leave_eq_LeaveBy_Id b R C C, hC]
  exact hby C

/-- Witness for claim C5: in the table holding only `sockA` in "lobby", leaving
the absent room "hall", or leaving "lobby" under the unused key "c2", changes
nothing. -/
theorem Leave_of_missing_is_noop_witness :
    lobbyA.LeaveBy "hall" "c2" sockB = (lobbyA, none)
      ∧ lobbyA.Leave "lobby" sockB = (lobbyA, none) :=
  ⟨(Leave_of_missing_is_noop lobbyA (by decide) "hall" "c2" (Or.inl (by decide))).1 sockB,
   (Leave_of_missing_is_noop lobbyA (by decide) "lobby" "c2"
      (Or.inr ⟨Finmap.singleton "c1" sockA, by decide, by decide⟩)).2 sockB rfl⟩

/-! ## The invariant: no room maps to an empty inner mapping -/

theorem Join_eq_JoinBy_Id (b : broadcast) (room : String) (socket : Socket) :
    b.Join room socket = b.JoinBy room socket.Id socket := rfl

theorem NoEmptyRoom_JoinBy (b : broadcast) (h : b.NoEmptyRoom) (room index : String)
    (socket : Socket) : (b.JoinBy room index socket).1.NoEmptyRoom := by
  rw [NoEmptyRoom_iff] at h ⊢
  intro r s hl
  change (b.m.insert room ((b.roomAt room).insert index socket)).lookup r = some s at hl
  by_cases hr : r = room
  · subst hr
    rw [Finmap.lookup_insert] at hl
    rw [← Option.some.inj hl]
    exact insert_ne_empty index socket _
  · rw [Finmap.lookup_insert_of_ne _ hr] at hl
    exact h r s hl

theorem NoEmptyRoom_LeaveBy (b : broadcast) (h : b.NoEmptyRoom) (room index : String)
    (socket : Socket) : (b.LeaveBy room index socket).1.NoEmptyRoom := by
  cases hR : b.m.lookup room with
  | none =>
    rw [LeaveBy_of_absent b room index socket hR]
    exact h
  | some sockets =>
    rw [NoEmptyRoom_iff] at h ⊢
    intro r s hl
    by_cases he : sockets.erase index = ∅
    · rw [LeaveBy_of_emptied b room index socket sockets hR he] at hl
      change (b.m.erase room).lookup r = some s at hl
      by_cases hr : r = room
      · subst hr
        rw [Finmap.lookup_erase] at hl
        exact Option.noConfusion hl
      · rw [Finmap.lookup_erase_ne hr] at hl
        exact h r s hl
    · rw [LeaveBy_of_remaining b room index socket sockets hR he] at hl
      change (b.m.insert room (sockets.erase index)).lookup r = some s at hl
      by_cases hr : r = room
      · subst hr
        rw [Finmap.lookup_insert] at hl
        rw [← Option.some.inj hl]
        exact he
      · rw [Finmap.lookup_insert_of_ne _ hr] at hl
        exact h r s hl

theorem NoEmptyRoom_step {α : Type} (b : broadcast) (h : b.NoEmptyRoom) (call : Call α) :
    (b.step call).NoEmptyRoom := by
  cases call with
  | Join room socket => exact NoEmptyRoom_JoinBy b h room socket.Id socket
  | JoinBy room index socket => exact NoEmptyRoom_JoinBy b h room index socket
  | Leave room socket => exact NoEmptyRoom_LeaveBy b h room socket.Id socket
  | LeaveBy room index socket => exact NoEmptyRoom_LeaveBy b h room index socket
  | Send _ _ _ _ => exact h
  | Len _ => exact h

theorem NoEmptyRoom_run {α : Type} (calls : List (Call α)) :
    ∀ b : broadcast, b.NoEmptyRoom → (b.run calls).NoEmptyRoom := by
  induction calls with
  | nil => exact fun _ h => h
  | cons call rest ih => exact fun b h => ih (b.step call) (NoEmptyRoom_step b h call)

/-- Claim C6: the predicate "every room present has at least one entry" holds of
a new registry, is preserved by every call (`Join`, `JoinBy`, `Leave`,
`LeaveBy`, `Send`, `Len`, with arbitrary arguments), and so holds after every
finite sequence of calls on a new registry. -/
theorem NoEmptyRoom_invariant {α : Type} :
    newBroadcastDefault.NoEmptyRoom
      ∧ (∀ (b : broadcast) (call : Call α), b.NoEmptyRoom → (b.step call).NoEmptyRoom)
      ∧ ∀ calls : List (Call α), (newBroadcastDefault.run calls).NoEmptyRoom := by
  have h0 : newBroadcastDefault.NoEmptyRoom := by decide
  exact ⟨h0, fun b call h => NoEmptyRoom_step b h call,
    fun calls => NoEmptyRoom_run calls newBroadcastDefault h0⟩

/-- Witness for claim C6: the invariant holds of the table holding `sockA` in
"lobby", and still holds after `sockA` leaves, which removes the room. -/
theorem NoEmptyRoom_invariant_witness :
    lobbyA.NoEmptyRoom ∧ (lobbyA.step (Call.Leave "lobby" sockA : Call String)).NoEmptyRoom
      ∧ (lobbyA.step (Call.Leave "lobby" sockA : Call String)) = newBroadcastDefault :=
  ⟨by decide, NoEmptyRoom_invariant.2.1 lobbyA (Call.Leave "lobby" sockA) (by decide),
    by decide⟩

/-! ## Pruning of an emptied room -/

/-- Claim C7: when the inner mapping of `R` has exactly one entry, under key `k`,
`LeaveBy(R, k, C)` for any `C` and `Leave(R, C)` for any `C` with `C.Id() = k`
produce the original table with `R` erased, which has no entry for `R`. -/
theorem Leave_last_entry_erases_room (b : broadcast) (R k : String) (sockets : Sockets)
    (hR : b.m.lookup R = some sockets) (hk : sockets.keys = {k}) :
    (∀ C, b.LeaveBy R k C = (⟨b.m.erase R⟩, none))
      ∧ (∀ C, C.Id = k → b.Leave R C = (⟨b.m.erase R⟩, none))
      ∧ (b.m.erase R).lookup R = none
      ∧ (⟨b.m.erase R⟩ : broadcast).entryCount R = 0 := by
  have he : sockets.erase k = ∅ := by
    rw [← keys_card_eq_zero_iff, Finmap.keys_erase, hk, Finset.erase_singleton, Finset.card_empty]
  have hby : ∀ C, b.LeaveBy R k C = (⟨b.m.erase R⟩, none) :=
    fun C => LeaveBy_of_emptied b R k C sockets hR he
  refine ⟨hby, fun C hC => ?_, Finmap.lookup_erase R b.m, ?_⟩
  · rw [Leave_eq_LeaveBy_Id b R C C, hC]
    exact hby C
  · simp [broadcast.entryCount, Finmap.lookup_erase]

/-- Witness for claim C7: the last member of "lobby" leaving gives back the new
(empty) registry, by `LeaveBy` under key "c1" and by `Leave` of `sockA`. -/
theorem Leave_last_entry_erases_room_witness :
    lobbyA.LeaveBy "lobby" "c1" sockB = (⟨lobbyA.m.erase "lobby"⟩, none)
      ∧ lobbyA.Leave "lobby" sockA = (⟨lobbyA.m.erase "lobby"⟩, none)
      ∧ (⟨lobbyA.m.erase "lobby"⟩ : broadcast) = newBroadcastDefault :=
  ⟨(Leave_last_entry_erases_room lobbyA "lobby" "c1" (Finmap.singleton "c1" sockA)
      (by decide) (by decide)).1 sockB,
   (Leave_last_entry_erases_room lobbyA "lobby" "c1" (Finmap.singleton "c1" sockA)
      (by decide) (by decide)).2.1 sockA rfl,
   by decide⟩

/-! ## Join followed by Leave, and repeated joins -/

theorem lookup_JoinBy_same (b : broadcast) (room index : String) (socket : Socket) :
    (b.JoinBy room index socket).1.m.lookup room
      = some ((b.roomAt room).insert index socket) :=
  Finmap.lookup_insert _

theorem roomAt_JoinBy_same (b : broadcast) (room index : String) (socket : Socket) :
    (b.JoinBy room index socket).1.roomAt room = (b.roomAt room).insert index socket :=
  roomAt_of_lookup_some (lookup_JoinBy_same b room index socket)

theorem JoinBy_JoinBy_same (b : broadcast) (room index : String) (s1 s2 : Socket) :
    (b.JoinBy room index s1).1.JoinBy room index s2 = b.JoinBy room index s2 := by
  have h : ((b.JoinBy room index s1).1.JoinBy room index s2)
      = (⟨(b.JoinBy room index s1).1.m.insert room
          (((b.JoinBy room index s1).1.roomAt room).insert index s2)⟩, none) := rfl
  rw [h, roomAt_JoinBy_same, Finmap.insert_insert]
  change ((⟨(b.m.insert room _).insert room _⟩ : broadcast), (none : error)) = _
  rw [Finmap.insert_insert]
  rfl

theorem erase_insert_of_lookup_none (k : String) (v : Socket) (s : Sockets)
    (h : s.lookup k = none) : (s.insert k v).erase k = s := by
  apply Finmap.ext_lookup
  intro x
  by_cases hx : x = k
  · subst hx
    rw [Finmap.lookup_erase, h]
  · rw [Finmap.lookup_erase_ne hx, Finmap.lookup_insert_of_ne _ hx]

/-- Claim C8, as stated, fails: in the table where `sockA` is already the one
member of "lobby", `Join("lobby", sockA)` followed by `Leave("lobby", sockA)`
leaves "lobby" with 0 entries, not the 1 it had before the `Join`. -/
theorem Join_Leave_count_counterexample :
    lobbyA.entryCount "lobby" = 1
      ∧ ((lobbyA.Join "lobby" sockA).1.Leave "lobby" sockA).1.entryCount "lobby" = 0 := by
  decide

/-- Claim C8, amended: when `C.Id()` is not yet a key of `R` (in particular when
`R` is absent), the number of entries of `R` after `Join(R, C)` followed by
`Leave(R, C)` equals the number of entries `R` had before the `Join`. -/
theorem Join_Leave_count_of_fresh (b : broadcast) (R : String) (C : Socket)
    (hfresh : (b.roomAt R).lookup C.Id = none) :
    ((b.Join R C).1.Leave R C).1.entryCount R = b.entryCount R := by
  have hl : (b.Join R C).1.m.lookup R = some ((b.roomAt R).insert C.Id C) :=
    lookup_JoinBy_same b R C.Id C
  have he : ((b.roomAt R).insert C.Id C).erase C.Id = b.roomAt R :=
    erase_insert_of_lookup_none C.Id C (b.roomAt R) hfresh
  rw [Leave_eq_LeaveBy_Id (b.Join R C).1 R C C, entryCount_eq_card_roomAt b R]
  by_cases hem : b.roomAt R = ∅
  · rw [LeaveBy_of_emptied _ R C.Id C _ hl (he.trans hem), hem, Finmap.keys_empty]
    simp [broadcast.entryCount, Finmap.lookup_erase]
  · rw [LeaveBy_of_remaining _ R C.Id C _ hl (fun h => hem (he.symm.trans h)), he]
    simp [broadcast.entryCount, Finmap.lookup_insert]

/-- Witness for claim C8 (amended): `sockB` is not a member of "lobby", and the
count of "lobby" is 1 before `Join("lobby", sockB)` and after the `Leave`. -/
theorem Join_Leave_count_of_fresh_witness :
    ((lobbyA.Join "lobby" sockB).1.Leave "lobby" sockB).1.entryCount "lobby" = 1 :=
  (Join_Leave_count_of_fresh lobbyA "lobby" sockB (by decide)).trans (by decide)

/-- Claim C9: `Join` is idempotent: `Join(R, C)` followed by `Join(R, C)` gives
the table (and the nil error) of a single `Join(R, C)`, so the second call does
not change the number of entries of `R`. -/
theorem Join_idempotent (b : broadcast) (R : String) (C : Socket) :
    (b.Join R C).1.Join R C = b.Join R C
      ∧ ((b.Join R C).1.Join R C).1.entryCount R = (b.Join R C).1.entryCount R := by
  have h : (b.Join R C).1.Join R C = b.Join R C := JoinBy_JoinBy_same b R C.Id C C
  exact ⟨h, by rw [h]⟩

/-- Claim C10: `JoinBy` is last-write-wins: `JoinBy(R, idx, C1)` followed by
`JoinBy(R, idx, C2)` gives the table of `JoinBy(R, idx, C2)` alone, in which key
`idx` of `R` holds `C2`, and `R` has as many entries as after the first call. -/
theorem JoinBy_last_write_wins (b : broadcast) (R idx : String) (C1 C2 : Socket) :
    (b.JoinBy R idx C1).1.JoinBy R idx C2 = b.JoinBy R idx C2
      ∧ (((b.JoinBy R idx C1).1.JoinBy R idx C2).1.roomAt R).lookup idx = some C2
      ∧ ((b.JoinBy R idx C1).1.JoinBy R idx C2).1.entryCount R
          = (b.JoinBy R idx C1).1.entryCount R := by
  have h : (b.JoinBy R idx C1).1.JoinBy R idx C2 = b.JoinBy R idx C2 :=
    JoinBy_JoinBy_same b R idx C1 C2
  refine ⟨h, ?_, ?_⟩
  · rw [h, roomAt_JoinBy_same]
    exact Finmap.lookup_insert _
  · rw [h, entryCount_eq_card_roomAt, entryCount_eq_card_roomAt, roomAt_JoinBy_same,
      roomAt_JoinBy_same, keys_insert_eq, keys_insert_eq]

/-! ## LeaveBy is keyed by the index alone -/

theorem erase_empty_eq (k : String) : (∅ : Sockets).erase k = ∅ :=
  erase_of_lookup_none k ∅ (Finmap.lookup_empty k)

theorem roomAt_erase_same (b : broadcast) (room : String) :
    (⟨b.m.erase room⟩ : broadcast).roomAt room = ∅ :=
  roomAt_of_lookup_none (Finmap.lookup_erase room b.m)

theorem roomAt_insert_same (b : broadcast) (room : String) (sockets : Sockets) :
    (⟨b.m.insert room sockets⟩ : broadcast).roomAt room = sockets :=
  roomAt_of_lookup_some (Finmap.lookup_insert b.m)

theorem roomAt_LeaveBy_same (b : broadcast) (room index : String) (socket : Socket) :
    (b.LeaveBy room index socket).1.roomAt room = (b.roomAt room).erase index := by
  cases hR : b.m.lookup room with
  | none =>
    rw [LeaveBy_of_absent b room index socket hR, roomAt_of_lookup_none hR, erase_empty_eq]
  | some sockets =>
    rw [roomAt_of_lookup_some hR]
    by_cases he : sockets.erase index = ∅
    · rw [LeaveBy_of_emptied b room index socket sockets hR he, he]
      exact roomAt_erase_same b room
    · rw [LeaveBy_of_remaining b room index socket sockets hR he]
      exact roomAt_insert_same b room _

/-- Claim C11: `LeaveBy` is keyed by the index alone: `LeaveBy(R, idx, C)` and
`LeaveBy(R, idx, C')` give the same result for any two connections, and in the
resulting table `R` has no entry under `idx` while every other key of `R` holds
what it held before. -/
theorem LeaveBy_keyed_by_index (b : broadcast) (R idx : String) (C C' : Socket) :
    b.LeaveBy R idx C = b.LeaveBy R idx C'
      ∧ ((b.LeaveBy R idx C).1.roomAt R).lookup idx = none
      ∧ ∀ k, k ≠ idx → ((b.LeaveBy R idx C).1.roomAt R).lookup k = (b.roomAt R).lookup k := by
  refine ⟨rfl, ?_, fun k hk => ?_⟩
  · rw [roomAt_LeaveBy_same]
    exact Finmap.lookup_erase idx _
  · rw [roomAt_LeaveBy_same]
    exact Finmap.lookup_erase_ne hk

/-- Witness for claim C11: in the table holding `sockA` under "c1" and `sockB`
under "user-42", `LeaveBy("lobby", "user-42", sockA)`, called with a connection
that does not occupy the key, removes "user-42" and keeps "c1". -/
theorem LeaveBy_keyed_by_index_witness :
    ((lobbyAB.LeaveBy "lobby" "user-42" sockA).1.roomAt "lobby").lookup "user-42" = none
      ∧ ((lobbyAB.LeaveBy "lobby" "user-42" sockA).1.roomAt "lobby").lookup "c1"
          = some sockA :=
  ⟨(LeaveBy_keyed_by_index lobbyAB "lobby" "user-42" sockA sockB).2.1,
   ((LeaveBy_keyed_by_index lobbyAB "lobby" "user-42" sockA sockB).2.2 "c1"
      (by decide)).trans (by decide)⟩

/-! ## Cross-room isolation -/

theorem lookup_JoinBy_other (t : broadcast) (a b : String) (hab : a ≠ b) (index : String)
    (socket : Socket) : (t.JoinBy a index socket).1.m.lookup b = t.m.lookup b :=
  Finmap.lookup_insert_of_ne _ (Ne.symm hab)

theorem lookup_LeaveBy_other (t : broadcast) (a b : String) (hab : a ≠ b) (index : String)
    (socket : Socket) : (t.LeaveBy a index socket).1.m.lookup b = t.m.lookup b := by
  cases hR : t.m.lookup a with
  | none => rw [LeaveBy_of_absent t a index socket hR]
  | some sockets =>
    by_cases he : sockets.erase index = ∅
    · rw [LeaveBy_of_emptied t a index socket sockets hR he]
      exact Finmap.lookup_erase_ne (Ne.symm hab)
    · rw [LeaveBy_of_remaining t a index socket sockets hR he]
      exact Finmap.lookup_insert_of_ne _ (Ne.symm hab)

theorem entryCount_of_lookup_eq {t u : broadcast} {room : String}
    (h : u.m.lookup room = t.m.lookup room) : u.entryCount room = t.entryCount room := by
  unfold broadcast.entryCount
  rw [h]

/-- Claim C12: cross-room isolation: for distinct room names `a` and `b`, each of
`Join`, `JoinBy`, `Leave` and `LeaveBy` applied to room `a`, with any key and
connection, leaves what the table holds under `b` (its presence and its entries)
and the entry count of `b` as they were. -/
theorem other_room_unchanged (t : broadcast) (a b : String) (hab : a ≠ b) (idx : String)
    (C : Socket) :
    ((t.Join a C).1.m.lookup b = t.m.lookup b
        ∧ (t.Join a C).1.entryCount b = t.entryCount b)
      ∧ ((t.JoinBy a idx C).1.m.lookup b = t.m.lookup b
        ∧ (t.JoinBy a idx C).1.entryCount b = t.entryCount b)
      ∧ ((t.Leave a C).1.m.lookup b = t.m.lookup b
        ∧ (t.Leave a C).1.entryCount b = t.entryCount b)
      ∧ ((t.LeaveBy a idx C).1.m.lookup b = t.m.lookup b
        ∧ (t.LeaveBy a idx C).1.entryCount b = t.entryCount b) := by
  have h1 : (t.Join a C).1.m.lookup b = t.m.lookup b := lookup_JoinBy_other t a b hab C.Id C
  have h2 : (t.JoinBy a idx C).1.m.lookup b = t.m.lookup b := lookup_JoinBy_other t a b hab idx C
  have h3 : (t.Leave a C).1.m.lookup b = t.m.lookup b := lookup_LeaveBy_other t a b hab C.Id C
  have h4 : (t.LeaveBy a idx C).1.m.lookup b = t.m.lookup b :=
    lookup_LeaveBy_other t a b hab idx C
  exact ⟨⟨h1, entryCount_of_lookup_eq h1⟩, ⟨h2, entryCount_of_lookup_eq h2⟩,
    ⟨h3, entryCount_of_lookup_eq h3⟩, ⟨h4, entryCount_of_lookup_eq h4⟩⟩

/-- Witness for claim C12: joining `sockB` into "hall" leaves "lobby" holding its
single entry "c1", and `sockA` leaving "lobby" (which removes that room) leaves
the absent room "hall" absent. -/
theorem other_room_unchanged_witness :
    (lobbyA.Join "hall" sockB).1.m.lookup "lobby" = some (Finmap.singleton "c1" sockA)
      ∧ (lobbyA.Leave "lobby" sockA).1.m.lookup "hall" = none :=
  ⟨(other_room_unchanged lobbyA "hall" "lobby" (by decide) "x" sockB).1.1.trans (by decide),
   (other_room_unchanged lobbyA "lobby" "hall" (by decide) "x" sockA).2.2.1.1.trans
      (by decide)⟩

/-! ## Completion of the operations, nil values included -/

theorem LeaveBy_error (b : broadcast) (room index : String) (socket : Socket) :
    (b.LeaveBy room index socket).2 = none := by
  unfold broadcast.LeaveBy
  cases b.m.lookup room with
  | none => rfl
  | some sockets =>
    by_cases hc : (sockets.erase index).keys.card = 0
    · simp only [if_pos hc]
    · simp only [if_neg hc]

theorem nilable_roomAt_none {b : NilableBroadcast} {room : String}
    (h : b.m.lookup room = none) : b.roomAt room = ∅ := by
  simp [NilableBroadcast.roomAt, h]

theorem nilable_roomAt_insert (b : NilableBroadcast) (r : String) (s : SocketValues)
    (room : String) :
    (⟨b.m.insert r s⟩ : NilableBroadcast).roomAt room
      = if room = r then s else b.roomAt room := by
  by_cases h : room = r
  · subst h
    simp [NilableBroadcast.roomAt, Finmap.lookup_insert]
  · simp [NilableBroadcast.roomAt, Finmap.lookup_insert_of_ne _ h, h]

theorem nilable_roomAt_erase (b : NilableBroadcast) (r room : String) :
    (⟨b.m.erase r⟩ : NilableBroadcast).roomAt room
      = if room = r then ∅ else b.roomAt room := by
  by_cases h : room = r
  · subst h
    simp [NilableBroadcast.roomAt, Finmap.lookup_erase]
  · simp [NilableBroadcast.roomAt, Finmap.lookup_erase_ne h, h]

theorem NoNilEntry_iff (b : NilableBroadcast) :
    b.NoNilEntry ↔ ∀ room k, (b.roomAt room).lookup k ≠ some none := by
  constructor
  · intro h room k hk
    have hkm : k ∈ (b.roomAt room).keys :=
      Finmap.mem_keys.mpr (Finmap.mem_of_lookup_eq_some hk)
    have hrm : room ∈ b.m.keys := by
      rw [Finmap.mem_keys]
      by_contra hno
      rw [nilable_roomAt_none (Finmap.lookup_eq_none.mpr hno), Finmap.lookup_empty] at hk
      exact Option.noConfusion hk
    exact h room hrm k hkm hk
  · intro h room _ k _
    exact h room k

theorem NoNilEntry_store (b : NilableBroadcast) (h : b.NoNilEntry) (r : String)
    (s : SocketValues) (hs : ∀ k, s.lookup k ≠ some none) :
    (⟨b.m.insert r s⟩ : NilableBroadcast).NoNilEntry := by
  rw [NoNilEntry_iff] at h ⊢
  intro room k
  rw [nilable_roomAt_insert]
  by_cases hr : room = r
  · rw [if_pos hr]
    exact hs k
  · rw [if_neg hr]
    exact h room k

theorem NoNilEntry_drop (b : NilableBroadcast) (h : b.NoNilEntry) (r : String) :
    (⟨b.m.erase r⟩ : NilableBroadcast).NoNilEntry := by
  rw [NoNilEntry_iff] at h ⊢
  intro room k
  rw [nilable_roomAt_erase]
  by_cases hr : room = r
  · rw [if_pos hr, Finmap.lookup_empty]
    exact fun hk => Option.noConfusion hk
  · rw [if_neg hr]
    exact h room k

theorem lookup_insert_some_ne_nil (s : SocketValues) (hs : ∀ k, s.lookup k ≠ some none)
    (index : String) (v : Socket) : ∀ k, (s.insert index (some v)).lookup k ≠ some none := by
  intro k
  by_cases hk : k = index
  · subst hk
    rw [Finmap.lookup_insert]
    exact fun h => Option.noConfusion (Option.some.inj h)
  · rw [Finmap.lookup_insert_of_ne _ hk]
    exact hs k

theorem lookup_erase_ne_nil (s : SocketValues) (hs : ∀ k, s.lookup k ≠ some none)
    (index : String) : ∀ k, (s.erase index).lookup k ≠ some none := by
  intro k
  by_cases hk : k = index
  · subst hk
    rw [Finmap.lookup_erase]
    exact fun h => Option.noConfusion h
  · rw [Finmap.lookup_erase_ne hk]
    exact hs k

theorem nilable_JoinBy_completes (b : NilableBroadcast) (hb : b.NoNilEntry)
    (room index : String) (socket : Socket) :
    ∃ t, b.JoinBy room index (some socket) = some (t, none) ∧ t.NoNilEntry
      ∧ (t.roomAt room).lookup index = some (some socket) := by
  refine ⟨⟨b.m.insert room ((b.roomAt room).insert index (some socket))⟩, rfl, ?_, ?_⟩
  · exact NoNilEntry_store b hb room _
      (lookup_insert_some_ne_nil _ ((NoNilEntry_iff b).mp hb room) index socket)
  · rw [nilable_roomAt_insert, if_pos rfl]
    exact Finmap.lookup_insert _

theorem nilable_LeaveBy_completes (b : NilableBroadcast) (hb : b.NoNilEntry)
    (room index : String) (socket : SocketValue) :
    ∃ t, b.LeaveBy room index socket = some (t, none) ∧ t.NoNilEntry
      ∧ (t.roomAt room).lookup index = none := by
  cases hR : b.m.lookup room with
  | none =>
    refine ⟨b, by simp [NilableBroadcast.LeaveBy, hR], hb, ?_⟩
    rw [nilable_roomAt_none hR]
    exact Finmap.lookup_empty index
  | some sockets =>
    have hs : ∀ k, sockets.lookup k ≠ some none := by
      intro k
      have h := (NoNilEntry_iff b).mp hb room k
      simpa [NilableBroadcast.roomAt, hR] using h
    by_cases hc : (sockets.erase index).keys.card = 0
    · have hret : b.LeaveBy room index socket = some (⟨b.m.erase room⟩, none) := by
        simp only [NilableBroadcast.LeaveBy, hR]
        rw [if_pos hc]
      refine ⟨⟨b.m.erase room⟩, hret, NoNilEntry_drop b hb room, ?_⟩
      rw [nilable_roomAt_erase, if_pos rfl]
      exact Finmap.lookup_empty index
    · have hret : b.LeaveBy room index socket
          = some (⟨b.m.insert room (sockets.erase index)⟩, none) := by
        simp only [NilableBroadcast.LeaveBy, hR]
        rw [if_neg hc]
      refine ⟨⟨b.m.insert room (sockets.erase index)⟩, hret,
        NoNilEntry_store b hb room _ (lookup_erase_ne_nil sockets hs index), ?_⟩
      rw [nilable_roomAt_insert, if_pos rfl]
      exact Finmap.lookup_erase index sockets

theorem nilable_Leave_some (b : NilableBroadcast) (room : String) (socket : Socket) :
    b.Leave room (some socket) = b.LeaveBy room socket.Id (some socket) := by
  unfold NilableBroadcast.Leave NilableBroadcast.LeaveBy
  cases b.m.lookup room <;> rfl

theorem card_filterMap_of_ne_none {β γ : Type} (f : β → Option γ) (m : Multiset β)
    (h : ∀ x ∈ m, f x ≠ none) : Multiset.card (m.filterMap f) = Multiset.card m := by
  induction m using Multiset.induction_on with
  | empty => rfl
  | cons a m ih =>
    have hm : ∀ x ∈ m, f x ≠ none := fun x hx => h x (Multiset.mem_cons_of_mem hx)
    cases hfa : f a with
    | none => exact absurd hfa (h a (Multiset.mem_cons_self a m))
    | some c =>
      rw [Multiset.filterMap_cons_some f a m hfa, Multiset.card_cons, Multiset.card_cons, ih hm]

theorem nilable_Send_completes {α : Type} (b : NilableBroadcast) (hb : b.NoNilEntry)
    (ignore : SocketValue) (room event : String) (args : List α) :
    ∃ ems, b.Send ignore room event args = some (ems, none)
      ∧ Multiset.card ems
          = Multiset.card ((b.roomAt room).entries.filter (fun e => skips ignore e.1 = false)) := by
  have hval : ∀ e ∈ (b.roomAt room).entries.filter (fun e => skips ignore e.1 = false),
      e.2 ≠ none := by
    intro e he hnil
    have hmem : e ∈ (b.roomAt room).entries := (Multiset.mem_filter.mp he).1
    have hl : e.2 ∈ (b.roomAt room).lookup e.1 := Finmap.mem_lookup_iff.mpr hmem
    rw [hnil] at hl
    exact (NoNilEntry_iff b).mp hb room e.1 hl
  have hnot : (none : SocketValue)
      ∉ ((b.roomAt room).entries.filter (fun e => skips ignore e.1 = false)).map
          (fun e => e.2) := by
    intro hin
    obtain ⟨e, he, hnil⟩ := Multiset.mem_map.mp hin
    exact hval e he hnil
  have hret : b.Send ignore room event args
      = some (((b.roomAt room).entries.filter (fun e => skips ignore e.1 = false)).filterMap
          (fun e => e.2.map (fun s => (⟨s, event, args⟩ : Emission α))), none) := by
    simp only [NilableBroadcast.Send]
    rw [if_neg hnot]
  refine ⟨_, hret, ?_⟩
  apply card_filterMap_of_ne_none
  intro e he hnone
  cases h2 : e.2 with
  | none => exact hval e he h2
  | some v =>
    rw [h2] at hnone
    exact Option.noConfusion hnone

/-- Claim C13, as stated, fails: `Join("lobby", nil)` on a new registry panics
at `socket.Id()` and does not return; so does `Leave("lobby", nil)` on a room
that is present; `JoinBy("lobby", "user-42", nil)` returns, storing nil, and
`Send(nil, "lobby", "chat", "hello")` on the table it leaves panics at `s.Emit`. -/
theorem operations_panic_on_nil :
    newNilableBroadcast.Join "lobby" none = none
      ∧ nilableLobbyA.Leave "lobby" none = none
      ∧ newNilableBroadcast.JoinBy "lobby" "user-42" none = some (nilableLobbyNil, none)
      ∧ nilableLobbyNil.Send none "lobby" "chat" ["hello"] = none := by
  decide

/-- Claim C13, amended: on a table that holds no nil connection (as a new
registry does, and as every table left by these calls does), for every room,
index, event and argument list, every non-nil connection and every `ignore`
(nil or not), each of `Join`, `JoinBy`, `Leave`, `LeaveBy` and `Send` completes
and returns a nil error: the joins leave the connection under its key, the
leaves leave no entry under theirs, `Send` emits once for every entry its guard
does not skip, and the table left holds no nil connection. -/
theorem operations_complete_on_connections {α : Type} (b : NilableBroadcast)
    (hb : b.NoNilEntry) (room index event : String) (socket : Socket) (ignore : SocketValue)
    (args : List α) :
    newNilableBroadcast.NoNilEntry
      ∧ (∃ t, b.Join room (some socket) = some (t, none) ∧ t.NoNilEntry
          ∧ (t.roomAt room).lookup socket.Id = some (some socket))
      ∧ (∃ t, b.JoinBy room index (some socket) = some (t, none) ∧ t.NoNilEntry
          ∧ (t.roomAt room).lookup index = some (some socket))
      ∧ (∃ t, b.Leave room (some socket) = some (t, none) ∧ t.NoNilEntry
          ∧ (t.roomAt room).lookup socket.Id = none)
      ∧ (∃ t, b.LeaveBy room index (some socket) = some (t, none) ∧ t.NoNilEntry
          ∧ (t.roomAt room).lookup index = none)
      ∧ ∃ ems, b.Send ignore room event args = some (ems, none)
          ∧ Multiset.card ems
              = Multiset.card
                  ((b.roomAt room).entries.filter (fun e => skips ignore e.1 = false)) := by
  refine ⟨by decide, nilable_JoinBy_completes b hb room socket.Id socket,
    nilable_JoinBy_completes b hb room index socket, ?_,
    nilable_LeaveBy_completes b hb room index (some socket),
    nilable_Send_completes b hb ignore room event args⟩
  rw [nilable_Leave_some]
  exact nilable_LeaveBy_completes b hb room socket.Id (some socket)

/-- Witness for claim C13 (amended): the table left by `Join("lobby", sockA)` on
a new registry holds no nil connection, and on it `Join("lobby", sockB)` returns
a nil error and `Send(sockA, "lobby", "chat", "hello")` returns one too, with no
emission. -/
theorem operations_complete_on_connections_witness :
    newNilableBroadcast.Join "lobby" (some sockA) = some (nilableLobbyA, none)
      ∧ nilableLobbyA.NoNilEntry
      ∧ (∃ t, nilableLobbyA.Join "lobby" (some sockB) = some (t, none) ∧ t.NoNilEntry
          ∧ (t.roomAt "lobby").lookup "c2" = some (some sockB))
      ∧ ∃ ems : Multiset (Emission String),
          nilableLobbyA.Send (some sockA) "lobby" "chat" ["hello"] = some (ems, none)
            ∧ Multiset.card ems = 0 :=
  ⟨by decide, by decide,
   (@operations_complete_on_connections String nilableLobbyA (by decide) "lobby" "x" "chat"
      sockB (some sockA) ["hello"]).2.1,
   (@operations_complete_on_connections String nilableLobbyA (by decide) "lobby" "x" "chat"
      sockB (some sockA) ["hello"]).2.2.2.2.2.imp (fun _ h => ⟨h.1, h.2.trans (by decide)⟩)⟩

/-! ## The example scenario -/

/-- Claim C14, evaluated on the code: in the example scenario `Send(sockA, ...)`
emits `("chat", "hello")` to `sockB` only and "lobby" has 2, then 1, then no
entries (the room is gone after the last leave, leaving a new registry), yet
`Len("lobby")` returns 0 at every stage, not 2 and 1, because `Len` reads the
table at the key ":lobby". -/
theorem example_scenario_Len_returns_zero :
    (lobbyAB.Send (some sockA) "lobby" "chat" ["hello"]).1 = {⟨sockB, "chat", ["hello"]⟩}
      ∧ lobbyAB.entryCount "lobby" = 2 ∧ lobbyAB.Len "lobby" = 0
      ∧ (lobbyAB.LeaveBy "lobby" "user-42" sockB).1.entryCount "lobby" = 1
      ∧ (lobbyAB.LeaveBy "lobby" "user-42" sockB).1.Len "lobby" = 0
      ∧ ((lobbyAB.LeaveBy "lobby" "user-42" sockB).1.Leave "lobby" sockA).1
          = newBroadcastDefault
      ∧ ((lobbyAB.LeaveBy "lobby" "user-42" sockB).1.Leave "lobby" sockA).1.Len "lobby" = 0 := by
  decide

/-! ## The lock discipline -/

theorem runActs_reads_shared (n : Nat) (rest : List Act) :
    runActs .shared (List.replicate n .readTable ++ rest) = runActs .shared rest := by
  induction n with
  | zero => rfl
  | succ n ih => exact ih

/-- Claim C15, evaluated on the code: the body of `Len` reads the table while
holding no lock, whereas `Join`, `JoinBy`, `Leave` and `LeaveBy` on every path
hold the lock exclusively around all their reads and writes, and `Send` holds
it in shared mode around all its reads. -/
theorem Len_reads_table_without_lock :
    guarded LenActs = false
      ∧ guarded JoinActs = true ∧ guarded JoinByActs = true
      ∧ (∀ ok emptied, guarded (LeaveActs ok emptied) = true)
      ∧ (∀ ok emptied, guarded (LeaveByActs ok emptied) = true)
      ∧ ∀ n, guarded (SendActs n) = true := by
  refine ⟨by decide, by decide, by decide, by decide, by decide, fun n => ?_⟩
  have h : runActs .nothing (SendActs n) = some .nothing :=
    runActs_reads_shared n [.RUnlock]
  simp [guarded, h]

/-! ## Send with a non-nil ignore -/

theorem kerase_eq_filter_key_ne (a : String) :
    ∀ l : List (Σ _ : String, Socket), l.NodupKeys →
      l.kerase a = l.filter (fun e => decide (e.1 ≠ a))
  | [], _ => rfl
  | e :: l, hnd => by
    have hl : l.NodupKeys := (List.nodupKeys_cons.mp hnd).2
    by_cases h : a = e.1
    · have hnot : a ∉ l.keys := h ▸ (List.nodupKeys_cons.mp hnd).1
      rw [List.kerase_cons_eq h, List.filter_cons_of_neg (by simp [h]),
        ← kerase_eq_filter_key_ne a l hl, List.kerase_of_not_mem_keys hnot]
    · rw [List.kerase_cons_ne h, List.filter_cons_of_pos (by simpa using Ne.symm h),
        kerase_eq_filter_key_ne a l hl]

theorem entries_erase_eq_filter (s : Sockets) (a : String) :
    (s.erase a).entries = s.entries.filter (fun e => e.1 ≠ a) := by
  induction s using Finmap.induction_on with
  | H l =>
    rw [Finmap.erase_toFinmap, AList.toFinmap_entries, AList.toFinmap_entries]
    have hk : (AList.erase a l).entries = l.entries.filter (fun e => decide (e.1 ≠ a)) :=
      kerase_eq_filter_key_ne a l.entries l.nodupKeys
    rw [hk, Multiset.filter_coe]

theorem skips_some_iff (ig : Socket) (k : String) : skips (some ig) k = true ↔ k = ig.Id := by
  simp [skips, eq_comm]

/-- Claim C16: with a non-nil `ignore`, `Send` emits to exactly the entries of `R`
whose key differs from `ignore.Id()`: the guard skips an entry if and only if
its key equals `ignore.Id()`, whatever connection the entry holds, so the
emissions are those of the entries of `R` with the key `ignore.Id()` deleted. -/
theorem Send_skips_by_key {α : Type} (b : broadcast) (ig : Socket) (R event : String)
    (args : List α) :
    (b.Send (some ig) R event args).1
        = ((b.roomAt R).entries.filter (fun e => e.1 ≠ ig.Id)).map
            (fun e => (⟨e.2, event, args⟩ : Emission α))
      ∧ (∀ k, skips (some ig) k = true ↔ k = ig.Id)
      ∧ (b.Send (some ig) R event args).1
          = ((b.roomAt R).erase ig.Id).entries.map
              (fun e => (⟨e.2, event, args⟩ : Emission α)) := by
  have hf : (b.roomAt R).entries.filter (fun e => skips (some ig) e.1 = false)
      = (b.roomAt R).entries.filter (fun e => e.1 ≠ ig.Id) := by
    apply Multiset.filter_congr
    intro e _
    have hs := skips_some_iff ig e.1
    constructor
    · intro h1 h2
      rw [hs.mpr h2] at h1
      exact Bool.noConfusion h1
    · intro h1
      cases hsk : skips (some ig) e.1 with
      | false => rfl
      | true => exact absurd (hs.mp hsk) h1
  have h1 : (b.Send (some ig) R event args).1
      = ((b.roomAt R).entries.filter (fun e => e.1 ≠ ig.Id)).map
          (fun e => (⟨e.2, event, args⟩ : Emission α)) := by
    simp only [broadcast.Send, hf]
  exact ⟨h1, skips_some_iff ig, by rw [h1, entries_erase_eq_filter]⟩

/-- Witness for claim C16: `sockB` registered under the key "c1" is skipped by
`Send(sockA, ...)`, since its key is the identity of `sockA`. -/
theorem Send_skips_by_key_witness :
    (lobbyBUnderA.Send (some sockA) "lobby" "chat" ["hello"]).1 = 0 :=
  (Send_skips_by_key lobbyBUnderA sockA "lobby" "chat" ["hello"]).2.2.trans (by decide)

/-! ## One key space for Join and JoinBy -/

/-- Claim C17: identity-keyed and index-keyed membership share one key space:
`Join(R, C)` is `JoinBy(R, C.Id(), C)`, `Leave(R, C)` is `LeaveBy(R, C.Id(), C')`
for any `C'`, and so `Leave(R, C)` removes the entry under the key `C.Id()` even
when `JoinBy` placed another connection `D` there. -/
theorem Join_Leave_are_keyed_by_Id (b : broadcast) (R : String) (C C' D : Socket) :
    b.Join R C = b.JoinBy R C.Id C
      ∧ b.Leave R C = b.LeaveBy R C.Id C'
      ∧ (((b.JoinBy R C.Id D).1.Leave R C).1.roomAt R).lookup C.Id = none := by
  refine ⟨rfl, rfl, ?_⟩
  rw [Leave_eq_LeaveBy_Id _ R C C, roomAt_LeaveBy_same]
  exact Finmap.lookup_erase C.Id _

/-! ## Counting joins -/

theorem entryCount_JoinBy (t : broadcast) (R idx : String) (C : Socket) :
    (t.JoinBy R idx C).1.entryCount R
      = t.entryCount R + (if idx ∈ (t.roomAt R).keys then 0 else 1) := by
  rw [entryCount_eq_card_roomAt, entryCount_eq_card_roomAt, roomAt_JoinBy_same, keys_insert_eq]
  by_cases h : idx ∈ (t.roomAt R).keys
  · rw [Finset.card_insert_of_mem h, if_pos h, Nat.add_zero]
  · rw [Finset.card_insert_of_not_mem h, if_neg h]

theorem joinAll_cons (b : broadcast) (R : String) (c : Socket) (cs : List Socket) :
    b.joinAll R (c :: cs) = (b.Join R c).1.joinAll R cs := rfl

theorem lookup_joinAll_other (R k : String) :
    ∀ (cs : List Socket) (b : broadcast), k ∉ cs.map Socket.Id →
      ((b.joinAll R cs).roomAt R).lookup k = (b.roomAt R).lookup k
  | [], _, _ => rfl
  | c :: cs, b, hk => by
    rw [List.map_cons, List.mem_cons, not_or] at hk
    rw [joinAll_cons, lookup_joinAll_other R k cs _ hk.2, Join_eq_JoinBy_Id, roomAt_JoinBy_same]
    exact Finmap.lookup_insert_of_ne _ hk.1

theorem lookup_joinAll_mem (R : String) :
    ∀ (cs : List Socket) (b : broadcast), (cs.map Socket.Id).Nodup →
      ∀ c ∈ cs, ((b.joinAll R cs).roomAt R).lookup c.Id = some c
  | [], _, _ => fun c hc => absurd hc (List.not_mem_nil c)
  | c0 :: cs, b, hnd => by
    rw [List.map_cons, List.nodup_cons] at hnd
    intro c hc
    rw [joinAll_cons]
    rcases List.mem_cons.mp hc with h0 | hmem
    · subst h0
      rw [lookup_joinAll_other R c.Id cs _ hnd.1, Join_eq_JoinBy_Id, roomAt_JoinBy_same]
      exact Finmap.lookup_insert _
    · exact lookup_joinAll_mem R cs _ hnd.2 c hmem

theorem entryCount_joinAll (R : String) :
    ∀ (cs : List Socket) (b : broadcast), (cs.map Socket.Id).Nodup →
      (∀ c ∈ cs, (b.roomAt R).lookup c.Id = none) →
      (b.joinAll R cs).entryCount R = b.entryCount R + cs.length
  | [], _, _, _ => rfl
  | c0 :: cs, b, hnd, hfresh => by
    rw [List.map_cons, List.nodup_cons] at hnd
    have h0 : c0.Id ∉ (b.roomAt R).keys := by
      rw [Finmap.mem_keys, ← Finmap.lookup_eq_none]
      exact hfresh c0 (List.mem_cons_self c0 cs)
    have hrest : ∀ c ∈ cs, ((b.Join R c0).1.roomAt R).lookup c.Id = none := by
      intro c hc
      have hne : c.Id ≠ c0.Id := fun he => hnd.1 (he ▸ List.mem_map_of_mem Socket.Id hc)
      rw [Join_eq_JoinBy_Id, roomAt_JoinBy_same, Finmap.lookup_insert_of_ne _ hne]
      exact hfresh c (List.mem_cons_of_mem c0 hc)
    rw [joinAll_cons, entryCount_joinAll R cs _ hnd.2 hrest, Join_eq_JoinBy_Id,
      entryCount_JoinBy, if_neg h0, List.length_cons]
    omega

/-- Claim C18: joining a list of connections with pairwise distinct identities,
one after another, into a room `R` that is absent from the table leaves `R` with
as many entries as the list has connections, each connection under its own
identity and no other key; and any `Join(R, C)` raises the entry count of `R` by 1
when `C.Id()` is not yet a key of `R` and by 0 otherwise. -/
theorem joinAll_distinct_counts_all (b : broadcast) (R : String) (cs : List Socket)
    (habs : b.m.lookup R = none) (hnd : (cs.map Socket.Id).Nodup) :
    (b.joinAll R cs).entryCount R = cs.length
      ∧ (∀ c ∈ cs, ((b.joinAll R cs).roomAt R).lookup c.Id = some c)
      ∧ (∀ k, k ∉ cs.map Socket.Id → ((b.joinAll R cs).roomAt R).lookup k = none)
      ∧ ∀ (t : broadcast) (C : Socket),
          (t.Join R C).1.entryCount R
            = t.entryCount R + (if C.Id ∈ (t.roomAt R).keys then 0 else 1) := by
  have hempty : b.roomAt R = ∅ := roomAt_of_lookup_none habs
  refine ⟨?_, lookup_joinAll_mem R cs b hnd, fun k hk => ?_,
    fun t C => entryCount_JoinBy t R C.Id C⟩
  · rw [entryCount_joinAll R cs b hnd (fun c _ => by rw [hempty]; exact Finmap.lookup_empty _)]
    simp [broadcast.entryCount, habs]
  · rw [lookup_joinAll_other R k cs b hk, hempty]
    exact Finmap.lookup_empty k

/-- Witness for claim C18: `sockA` and `sockB` have the distinct identities "c1"
and "c2", and joining both into the absent room "lobby" gives it 2 entries. -/
theorem joinAll_distinct_counts_all_witness :
    (newBroadcastDefault.joinAll "lobby" [sockA, sockB]).entryCount "lobby" = 2 :=
  (joinAll_distinct_counts_all newBroadcastDefault "lobby" [sockA, sockB]
    (by decide) (by decide)).1

end socketio
